import Mathlib

/-!
# whatsapp-chat : `src/App.jsx`

A shallow embedding of the `App` component: its hook state, the derivation of
`participants`, the handlers `processFile` and `setMessageLimits`, the effect
that sets the active user, and the props given to `MessageViewer`.

Numbers entered in the form are modelled by `Int`; `NaN` is `none`.  JavaScript
numbers are doubles, so digit strings beyond `2 ^ 53` are rounded there; the
rounding is monotone and the statements below only compare and order values.
-/

namespace App

/-! ## Data model -/

/-- A parsed message, as returned by `parseStringSync`. -/
structure Message where
  author : String
  message : String
deriving DecidableEq, Repr

/-- The constant `DEFAULT_LOWER_LIMIT = 1`. -/
def DEFAULT_LOWER_LIMIT : Int := 1

/-- The constant `DEFAULT_UPPER_LIMIT = 100`. -/
def DEFAULT_UPPER_LIMIT : Int := 100

/-! ## `participants` (lines 38-46) -/

/-- The method `Set.prototype.add` on a set of strings kept in insertion order: a value
already present is not added again. -/
def setAdd (set : List String) (a : String) : List String :=
  if a ∈ set then set else set ++ [a]

/-- The body of the `participants` memo:
`messages.forEach(m => { if (m.author !== 'System') set.add(m.author); })`
followed by `Array.from(set)`. -/
def participants (messages : List Message) : List String :=
  messages.foldl (fun set m => if m.author ≠ "System" then setAdd set m.author else set) []

/-! ## The effect `setActiveUser(participants[0] || '')` (lines 90-92) -/

/-- The hook state of `App`: the five `useState` / `useAtom` cells.  `zipFile`
is `null` (`none`) or the identity of the promise returned by `loadAsync`. -/
structure AppState where
  activeUser : String
  lowerLimit : Int
  upperLimit : Int
  rawFileText : String
  zipFile : Option Nat
deriving DecidableEq, Repr

/-- JavaScript `x || d` where `x` is a string or `undefined`: the empty string
and `undefined` are falsy. -/
def strOr (x : Option String) (d : String) : String :=
  match x with
  | some v => if v = "" then d else v
  | none => d

/-- The body of the effect: `setActiveUser(participants[0] || '')`. -/
def activeUserEffect (participants : List String) (s : AppState) : AppState :=
  { s with activeUser := strOr participants.head? "" }

/-! ## `setMessageLimits` (lines 76-88) -/

/-- The ECMAScript `WhiteSpace` and `LineTerminator` code points, the characters
`parseInt` strips from the start of its argument. -/
def isWhiteSpace (c : Char) : Bool :=
  let n := c.toNat
  n = 0x9 || n = 0xA || n = 0xB || n = 0xC || n = 0xD || n = 0x20 || n = 0xA0
    || n = 0x1680 || (0x2000 ≤ n && n ≤ 0x200A) || n = 0x2028 || n = 0x2029
    || n = 0x202F || n = 0x205F || n = 0x3000 || n = 0xFEFF

/-- A decimal digit. -/
def isDigit10 (c : Char) : Bool :=
  48 ≤ c.toNat && c.toNat ≤ 57

/-- The mathematical value of a run of decimal digits. -/
def digitsValue (ds : List Char) : Nat :=
  ds.foldl (fun acc d => 10 * acc + (d.toNat - 48)) 0

/-- The call `parseInt(string, 10)`: leading white space is skipped, one sign is
accepted, then the longest run of decimal digits is read; `none` is `NaN`
(no digit at that place).  `-0` is rendered as `0`. -/
def parseInt (string : String) : Option Int :=
  let s := string.toList.dropWhile isWhiteSpace
  let sign : Int := match s with
    | '-' :: _ => -1
    | _ => 1
  let s := match s with
    | '-' :: r => r
    | '+' :: r => r
    | _ => s
  let z := s.takeWhile isDigit10
  if z = [] then none else some (sign * (digitsValue z : Int))

/-- JavaScript `x || d` where `x` is a number: `NaN` and `0` are falsy. -/
def numOr (x : Option Int) (d : Int) : Int :=
  match x with
  | some v => if v = 0 then d else v
  | none => d

/-- The constant `const lower = ll === '' ? DEFAULT_LOWER_LIMIT : parseInt(ll, 10) || DEFAULT_LOWER_LIMIT;` -/
def lower (ll : String) : Int :=
  if ll = "" then DEFAULT_LOWER_LIMIT else numOr (parseInt ll) DEFAULT_LOWER_LIMIT

/-- The constant `const upper = ul === '' ? DEFAULT_UPPER_LIMIT : parseInt(ul, 10) || DEFAULT_UPPER_LIMIT;` -/
def upper (ul : String) : Int :=
  if ul = "" then DEFAULT_UPPER_LIMIT else numOr (parseInt ul) DEFAULT_UPPER_LIMIT

/-- The handler `setMessageLimits`, with `ll` and `ul` the two entries of the
submitted form data: `setLowerLimit(Math.min(lower, upper));`
`setUpperLimit(Math.max(lower, upper));`. -/
def setMessageLimits (ll ul : String) (s : AppState) : AppState :=
  { s with lowerLimit := min (lower ll) (upper ul), upperLimit := max (lower ll) (upper ul) }

/-! ## `processFile` (lines 48-74) -/

/-- The regular expressions needed for the media-type test: literals, `(?:r)?`
and concatenation. -/
inductive Regex where
  | lit (s : List Char)
  | opt (r : Regex)
  | seq (r₁ r₂ : Regex)

/-- All the ways `r` can match at the start of the input, each given by the
input left over, in backtracking order (an optional group is tried first). -/
def Regex.remainders : Regex → List Char → List (List Char)
  | .lit p, s => if p.isPrefixOf s then [s.drop p.length] else []
  | .opt r, s => r.remainders s ++ [s]
  | .seq r₁ r₂, s => (r₁.remainders s).flatMap r₂.remainders

/-- The call `/^r$/.test(str)`: some way of matching `r` uses up the whole input. -/
def Regex.test (r : Regex) (str : String) : Bool :=
  (r.remainders str.toList).any List.isEmpty

/-- The pattern of `/^application\/(?:x-)?zip(?:-compressed)?$/`. -/
def zipTypeRegex : Regex :=
  .seq (.lit "application/".toList)
    (.seq (.opt (.lit "x-".toList))
      (.seq (.lit "zip".toList) (.opt (.lit "-compressed".toList))))

/-- The argument of `processFile`, reduced to what the function reads: `file.type`. -/
structure File where
  type : String
deriving DecidableEq, Repr

/-- The read started on the `FileReader`. -/
inductive ReadRequest where
  | readAsArrayBuffer
  | readAsText
deriving DecidableEq, Repr

/-- What a call of `processFile` has done when it returns: the hook state, the
read it started (if any) and the messages it passed to `showError`. -/
structure ProcessOutcome where
  state : AppState
  read : Option ReadRequest
  errors : List String
deriving DecidableEq, Repr

/-- The function `processFile`; `none` stands for a falsy `file`.  The state
setters are only called from `loadEndHandler`, which runs when a read ends. -/
def processFile (file : Option File) (s : AppState) : ProcessOutcome :=
  match file with
  | none => ⟨s, none, []⟩
  | some f =>
    if zipTypeRegex.test f.type then ⟨s, some .readAsArrayBuffer, []⟩
    else if f.type = "text/plain" then ⟨s, some .readAsText, []⟩
    else ⟨s, none, ["File type " ++ f.type ++ " not supported"]⟩

/-! ## Rendering: `useMemo`, `useEffect` and the props of `MessageViewer` -/

/-- The imported functions called while rendering; their code is outside `App.jsx`. -/
structure Imports where
  parseStringSync : String → Bool → List Message
  replaceEncryptionMessageAuthor : List Message → List Message

/-- A `useMemo` cell: the dependencies of the last computation, its value and
the identity of the object holding the value. -/
structure MemoCell (δ α : Type) where
  deps : δ
  value : α
  ident : Nat
deriving DecidableEq, Repr

/-- The hook cells of `App` that are not state: the two memos, the dependency
of the effect at its last run (the identity of `participants`; `setActiveUser`
is a stable function), and the next unused object identity. -/
structure Hooks where
  messages : MemoCell (String × Option Nat) (List Message)
  participants : MemoCell Nat (List String)
  effectDeps : Nat
  nextId : Nat
deriving DecidableEq, Repr

/-- A mounted `App`. -/
structure Component where
  state : AppState
  hooks : Hooks
deriving DecidableEq, Repr

/-- The body of the `messages` memo. -/
def computeMessages (lib : Imports) (rawFileText : String) (zipFile : Option Nat) :
    List Message :=
  if rawFileText = "" then []
  else lib.replaceEncryptionMessageAuthor (lib.parseStringSync rawFileText (zipFile ≠ none))

/-- The hook `useMemo` on a later render: the cell is kept when the dependencies are
those of the last computation; otherwise the value is computed again and is a
new object. -/
def useMemo {δ α : Type} [DecidableEq δ] (cell : MemoCell δ α) (deps : δ) (nextId : Nat)
    (compute : Unit → α) : MemoCell δ α × Nat :=
  if cell.deps = deps then (cell, nextId) else (⟨deps, compute (), nextId⟩, nextId + 1)

/-- One render of `App` followed by its effects: the two memos are evaluated,
and the effect runs when the identity of `participants` is not the one of its
last run. -/
def renderPass (lib : Imports) (c : Component) : Component :=
  let m := useMemo c.hooks.messages (c.state.rawFileText, c.state.zipFile) c.hooks.nextId
    (fun _ => computeMessages lib c.state.rawFileText c.state.zipFile)
  let p := useMemo c.hooks.participants m.1.ident m.2 (fun _ => participants m.1.value)
  let s := if c.hooks.effectDeps = p.1.ident then c.state
    else activeUserEffect p.1.value c.state
  ⟨s, ⟨m.1, p.1, p.1.ident, p.2⟩⟩

/-- A state update: React renders again until nothing changes.  The effect
sets state at most once, so a second pass reaches the fixed point
(`renderPass_renderPass`). -/
def rerender (lib : Imports) (c : Component) : Component :=
  renderPass lib (renderPass lib c)

/-- The first render: every memo is computed, the effect runs. -/
def mount (lib : Imports) (activeUserAtom : String) : Component :=
  let s : AppState := ⟨activeUserAtom, DEFAULT_LOWER_LIMIT, DEFAULT_UPPER_LIMIT, "", none⟩
  let ms := computeMessages lib s.rawFileText s.zipFile
  let ps := participants ms
  rerender lib ⟨activeUserEffect ps s, ⟨⟨("", none), ms, 0⟩, ⟨0, ps, 1⟩, 1, 2⟩⟩

/-- The form is submitted: `setMessageLimits` runs, then `App` renders again. -/
def submitLimits (lib : Imports) (ll ul : String) (c : Component) : Component :=
  rerender lib { c with state := setMessageLimits ll ul c.state }

/-- The `onChange` of the select: `setActiveUser(e.target.value)`. -/
def selectActiveUser (lib : Imports) (value : String) (c : Component) : Component :=
  rerender lib { c with state := { c.state with activeUser := value } }

/-- The result of a read, as `loadEndHandler` tells them apart. -/
inductive ReadResult where
  | arrayBuffer
  | text (result : String)
deriving DecidableEq, Repr

/-- The handler `loadEndHandler`: for an `ArrayBuffer` the new archive promise
is stored (the transcript text arrives later, see `chatFileRead`); otherwise
the archive is cleared and the text is stored. -/
def loadEndHandler (lib : Imports) (result : ReadResult) (c : Component) : Component :=
  match result with
  | .arrayBuffer =>
    rerender lib { state := { c.state with zipFile := some c.hooks.nextId },
                   hooks := { c.hooks with nextId := c.hooks.nextId + 1 } }
  | .text r =>
    rerender lib { c with state := { c.state with zipFile := none, rawFileText := r } }

/-- The continuation `zip.then(readChatFile).then(setRawFileText)`. -/
def chatFileRead (lib : Imports) (text : String) (c : Component) : Component :=
  rerender lib { c with state := { c.state with rawFileText := text } }

/-- The props of `<MessageViewer ... />` (lines 105-112). -/
structure MessageViewerProps where
  messages : List Message
  participants : List String
  activeUser : String
  lowerLimit : Int
  upperLimit : Int
  zipFile : Option Nat
deriving DecidableEq, Repr

/-- The props `App` gives to `MessageViewer` in the current render. -/
def messageViewerProps (c : Component) : MessageViewerProps :=
  { messages := c.hooks.messages.value
    participants := c.hooks.participants.value
    activeUser := c.state.activeUser
    lowerLimit := c.state.lowerLimit
    upperLimit := c.state.upperLimit
    zipFile := c.state.zipFile }

/-! ## Names used by the statements -/

/-- The lower-cased form of a media type: `String.prototype.toLowerCase` on
the ASCII letters (no other character lower-cases to a letter of the pattern).
`App.jsx` does not call it; the statement about letter case refers to it. -/
def toLowerCase (t : String) : String :=
  ⟨t.toList.map Char.toLower⟩

/-- A transcript of three messages by `A`, `B`, `A`. -/
def sampleTranscript : String :=
  "1/1/20, 10:00 - A: hi\n1/1/20, 10:01 - B: hello\n1/1/20, 10:02 - A: bye"

/-- A second transcript with the same two authors. -/
def otherTranscript : String :=
  "2/1/20, 09:00 - A: morning\n2/1/20, 09:05 - B: morning"

/-- The imported parser at the two sample transcripts (any other text is taken
to hold no message); no author in them needs replacing. -/
def sampleImports : Imports :=
  { parseStringSync := fun text _ =>
      if text = sampleTranscript then [⟨"A", "hi"⟩, ⟨"B", "hello"⟩, ⟨"A", "bye"⟩]
      else if text = otherTranscript then [⟨"A", "morning"⟩, ⟨"B", "morning"⟩]
      else []
    replaceEncryptionMessageAuthor := fun ms => ms }

/-- A hook state with the default window and nothing loaded. -/
def emptyState : AppState :=
  ⟨"", DEFAULT_LOWER_LIMIT, DEFAULT_UPPER_LIMIT, "", none⟩

/-! ## Lemmas on `participants` -/

theorem participants_snoc (ms : List Message) (m : Message) :
    participants (ms ++ [m]) =
      if m.author ≠ "System" then setAdd (participants ms) m.author else participants ms := by
  simp [participants, List.foldl_append]

theorem mem_setAdd (s : List String) (a b : String) :
    b ∈ setAdd s a ↔ b ∈ s ∨ b = a := by
  unfold setAdd
  split
  · constructor
    · intro h; exact Or.inl h
    · rintro (h | h)
      · exact h
      · subst h; assumption
  · simp

theorem nodup_setAdd (s : List String) (a : String) (h : s.Nodup) : (setAdd s a).Nodup := by
  unfold setAdd
  split
  · exact h
  · rename_i hn
    rw [List.nodup_append]
    refine ⟨h, List.nodup_singleton a, ?_⟩
    intro x hx hy
    simp only [List.mem_singleton] at hy
    subst hy
    exact hn hx

theorem mem_participants (ms : List Message) (a : String) :
    a ∈ participants ms ↔ a ≠ "System" ∧ a ∈ ms.map Message.author := by
  induction ms using List.reverseRecOn with
  | nil => simp [participants]
  | append_singleton ms m ih =>
    rw [participants_snoc]
    by_cases hm : m.author = "System"
    · simp only [hm, ne_eq, not_true_eq_false, if_false, ih, List.map_append, List.map_cons,
        List.map_nil, List.mem_append, List.mem_singleton]
      constructor
      · rintro ⟨h1, h2⟩; exact ⟨h1, Or.inl h2⟩
      · rintro ⟨h1, h2 | h2⟩
        · exact ⟨h1, h2⟩
        · exact absurd h2 h1
    · simp only [ne_eq, hm, not_false_eq_true, if_true, mem_setAdd, ih, List.map_append,
        List.map_cons, List.map_nil, List.mem_append, List.mem_singleton]
      constructor
      · rintro (⟨h1, h2⟩ | h)
        · exact ⟨h1, Or.inl h2⟩
        · subst h; exact ⟨hm, Or.inr rfl⟩
      · rintro ⟨h1, h2 | h2⟩
        · exact Or.inl ⟨h1, h2⟩
        · exact Or.inr h2

theorem nodup_participants (ms : List Message) : (participants ms).Nodup := by
  induction ms using List.reverseRecOn with
  | nil => simp [participants]
  | append_singleton ms m ih =>
    rw [participants_snoc]
    split
    · exact nodup_setAdd _ _ ih
    · exact ih

theorem firstSeen_participants (ms : List Message) :
    (participants ms).Pairwise
      (fun a b => (ms.map Message.author).indexOf a < (ms.map Message.author).indexOf b) := by
  induction ms using List.reverseRecOn with
  | nil => simp [participants]
  | append_singleton ms m ih =>
    have hold : (participants ms).Pairwise (fun a b =>
        ((ms ++ [m]).map Message.author).indexOf a
          < ((ms ++ [m]).map Message.author).indexOf b) := by
      refine List.Pairwise.imp_of_mem ?_ ih
      intro a b ha hb hab
      have ha2 := ((mem_participants ms a).1 ha).2
      have hb2 := ((mem_participants ms b).1 hb).2
      simp only [List.map_append, List.map_cons, List.map_nil]
      rw [List.indexOf_append_of_mem ha2, List.indexOf_append_of_mem hb2]
      exact hab
    rw [participants_snoc]
    split
    · rename_i hm
      unfold setAdd
      split
      · exact hold
      · rename_i hn
        rw [List.pairwise_append]
        refine ⟨hold, List.pairwise_singleton _ _, ?_⟩
        intro a ha b hb
        simp only [List.mem_singleton] at hb
        subst hb
        have ha2 := ((mem_participants ms a).1 ha).2
        have hnot : m.author ∉ ms.map Message.author := by
          intro hmem
          exact hn ((mem_participants ms m.author).2 ⟨hm, hmem⟩)
        simp only [List.map_append, List.map_cons, List.map_nil]
        rw [List.indexOf_append_of_mem ha2, List.indexOf_append_of_not_mem hnot]
        have hlt := List.indexOf_lt_length.2 ha2
        simp only [List.length_map] at hlt ⊢
        show _ < ms.length + _
        omega
    · exact hold


/-! ## Lemmas on rendering -/

theorem renderPass_fixed (lib : Imports) (c : Component)
    (h₁ : c.hooks.messages.deps = (c.state.rawFileText, c.state.zipFile))
    (h₂ : c.hooks.participants.deps = c.hooks.messages.ident)
    (h₃ : c.hooks.effectDeps = c.hooks.participants.ident) :
    renderPass lib c = c := by
  obtain ⟨s, ⟨m, p, e, n⟩⟩ := c
  simp only at h₁ h₂ h₃
  simp [renderPass, useMemo, h₁, h₂, h₃]

theorem renderPass_settled (lib : Imports) (c : Component) :
    (renderPass lib c).hooks.messages.deps
        = ((renderPass lib c).state.rawFileText, (renderPass lib c).state.zipFile)
      ∧ (renderPass lib c).hooks.participants.deps = (renderPass lib c).hooks.messages.ident
      ∧ (renderPass lib c).hooks.effectDeps = (renderPass lib c).hooks.participants.ident := by
  obtain ⟨s, ⟨m, p, e, n⟩⟩ := c
  simp only [renderPass, useMemo, activeUserEffect]
  refine ⟨?_, ?_, ?_⟩
  · split_ifs <;> simp_all
  · split_ifs <;> simp_all
  · trivial

theorem renderPass_renderPass (lib : Imports) (c : Component) :
    renderPass lib (renderPass lib c) = renderPass lib c := by
  obtain ⟨h₁, h₂, h₃⟩ := renderPass_settled lib c
  exact renderPass_fixed lib _ h₁ h₂ h₃

theorem rerender_eq (lib : Imports) (c : Component) : rerender lib c = renderPass lib c :=
  renderPass_renderPass lib c

theorem renderPass_limits (lib : Imports) (c : Component) :
    (renderPass lib c).state.lowerLimit = c.state.lowerLimit
      ∧ (renderPass lib c).state.upperLimit = c.state.upperLimit := by
  simp only [renderPass, activeUserEffect]
  split_ifs <;> simp


/-! ## Lemmas on the media-type pattern -/

theorem mem_remainders_lit (p s r : List Char) :
    r ∈ (Regex.lit p).remainders s ↔ s = p ++ r := by
  simp only [Regex.remainders]
  split
  · rename_i h
    obtain ⟨t, rfl⟩ := List.isPrefixOf_iff_prefix.1 h
    simp [eq_comm]
  · rename_i h
    simp only [List.not_mem_nil, false_iff]
    intro hs
    exact h (List.isPrefixOf_iff_prefix.2 ⟨r, hs.symm⟩)

theorem test_iff (r : Regex) (t : String) :
    r.test t = true ↔ [] ∈ r.remainders t.toList := by
  simp only [Regex.test, List.any_eq_true]
  constructor
  · rintro ⟨x, hx, he⟩
    cases x with
    | nil => exact hx
    | cons a l => simp at he
  · intro h
    exact ⟨[], h, rfl⟩

theorem zipTypeRegex_test_iff (t : String) :
    zipTypeRegex.test t = true ↔
      t = "application/zip" ∨ t = "application/x-zip" ∨ t = "application/zip-compressed"
        ∨ t = "application/x-zip-compressed" := by
  constructor
  · intro h
    rw [test_iff] at h
    simp only [zipTypeRegex, Regex.remainders, List.mem_flatMap, List.mem_append,
      List.mem_singleton] at h
    obtain ⟨m₁, h₁, m₂, h₂, m₃, h₃, h₄⟩ := h
    have e₁ := (mem_remainders_lit _ _ _).1 h₁
    have e₃ := (mem_remainders_lit _ _ _).1 h₃
    have e₄ : m₃ = "-compressed".toList ∨ m₃ = [] := by
      rcases h₄ with h₄ | h₄
      · left
        have := (mem_remainders_lit _ _ _).1 h₄
        simpa using this
      · right; exact h₄.symm
    have e₂ : m₁ = "x-".toList ++ m₂ ∨ m₁ = m₂ := by
      rcases h₂ with h₂ | h₂
      · left; exact (mem_remainders_lit _ _ _).1 h₂
      · right; exact h₂.symm
    have key : ∀ l : List Char, t.toList = l → t = ⟨l⟩ := by
      intro l hl
      exact String.ext hl
    rcases e₂ with e₂ | e₂ <;> rcases e₄ with e₄ | e₄
    · right; right; right
      apply key
      rw [e₁, e₂, e₃, e₄]; rfl
    · right; left
      apply key
      rw [e₁, e₂, e₃, e₄]; rfl
    · right; right; left
      apply key
      rw [e₁, e₂, e₃, e₄]; rfl
    · left
      apply key
      rw [e₁, e₂, e₃, e₄]; rfl
  · rintro (h | h | h | h) <;> subst h <;> decide


/-! ## Participants -/

/-- C1: for every message sequence, `participants` has no duplicates, never
contains `"System"`, holds exactly the authors of the messages other than
`"System"`, and lists them in the order of the index of their first occurrence
among the authors of the message sequence. -/
theorem participants_distinct_first_seen (messages : List Message) :
    (participants messages).Nodup
      ∧ "System" ∉ participants messages
      ∧ (∀ a, a ∈ participants messages ↔ a ≠ "System" ∧ a ∈ messages.map Message.author)
      ∧ (participants messages).Pairwise (fun a b =>
          (messages.map Message.author).indexOf a < (messages.map Message.author).indexOf b) := by
  refine ⟨nodup_participants messages, ?_, mem_participants messages,
    firstSeen_participants messages⟩
  intro h
  exact ((mem_participants messages "System").1 h).1 rfl

/-! ## The active user -/

theorem activeUserEffect_cons (p : String) (ps : List String) (s : AppState) :
    (activeUserEffect (p :: ps) s).activeUser = p := by
  simp only [activeUserEffect, List.head?_cons, strOr]
  split_ifs with h
  · exact h.symm
  · rfl

/-- C2 (as the claim states it, refuted): with participants `[A, B]` and the
active user `B`, a member of the list, the effect sets the active user
to `A`. -/
theorem activeUserEffect_overwrites_member :
    "B" ∈ ["A", "B"]
      ∧ (activeUserEffect ["A", "B"] ⟨"B", 1, 100, sampleTranscript, none⟩).activeUser = "A"
      ∧ (activeUserEffect ["A", "B"] ⟨"B", 1, 100, sampleTranscript, none⟩).activeUser ≠ "B"
      ∧ (loadEndHandler sampleImports (.text otherTranscript)
          (selectActiveUser sampleImports "B"
            (loadEndHandler sampleImports (.text sampleTranscript)
              (mount sampleImports "")))).state.activeUser = "A" := by
  decide

/-- C2 (amended): for every participant list `P` and every active user `a`
that is a member of `P`, the effect sets the active user to the first entry of
`P`, so it leaves the active user equal to `a` exactly when `a` is the first
entry of `P`; running the effect twice is the same as running it once. -/
theorem activeUserEffect_member (P : List String) (s : AppState) (h : s.activeUser ∈ P) :
    (activeUserEffect P s).activeUser = P.headD ""
      ∧ ((activeUserEffect P s).activeUser = s.activeUser ↔ P.head? = some s.activeUser)
      ∧ activeUserEffect P (activeUserEffect P s) = activeUserEffect P s := by
  cases P with
  | nil => simp at h
  | cons p ps =>
    refine ⟨by rw [activeUserEffect_cons]; rfl, ?_, rfl⟩
    rw [activeUserEffect_cons]
    simp

theorem activeUserEffect_member_witness :
    (activeUserEffect ["A", "B"] ⟨"A", 1, 100, sampleTranscript, none⟩).activeUser = "A"
      ∧ ((activeUserEffect ["A", "B"] ⟨"B", 1, 100, sampleTranscript, none⟩).activeUser = "B"
          ↔ ["A", "B"].head? = some "B") :=
  ⟨(activeUserEffect_member ["A", "B"] ⟨"A", 1, 100, sampleTranscript, none⟩ (by decide)).1,
   (activeUserEffect_member ["A", "B"] ⟨"B", 1, 100, sampleTranscript, none⟩ (by decide)).2.1⟩

/-- C3: for every participant list `P` and every active user that is empty or
not a member of `P`, after the effect the active user is the first entry of
`P` when `P` is non-empty and the empty string when `P` is empty. -/
theorem activeUserEffect_invalid (P : List String) (s : AppState)
    (h : s.activeUser = "" ∨ s.activeUser ∉ P) :
    (activeUserEffect P s).activeUser = P.headD ""
      ∧ (P = [] → (activeUserEffect P s).activeUser = "")
      ∧ (∀ p ps, P = p :: ps → (activeUserEffect P s).activeUser = p) := by
  have _ := h
  cases P with
  | nil => simp [activeUserEffect, strOr]
  | cons p ps =>
    refine ⟨by rw [activeUserEffect_cons]; rfl, by simp, ?_⟩
    intro q qs hq
    rw [activeUserEffect_cons]
    exact (List.cons.inj hq).1

theorem activeUserEffect_invalid_witness :
    (activeUserEffect ["A", "B"] emptyState).activeUser = "A"
      ∧ (activeUserEffect [] ⟨"Z", 1, 100, "", none⟩).activeUser = ""
      ∧ (mount sampleImports "").state.activeUser = ""
      ∧ (loadEndHandler sampleImports (.text sampleTranscript)
          (mount sampleImports "")).hooks.participants.value = ["A", "B"]
      ∧ (loadEndHandler sampleImports (.text sampleTranscript)
          (mount sampleImports "")).state.activeUser = "A" :=
  ⟨(activeUserEffect_invalid ["A", "B"] emptyState (Or.inl rfl)).2.2 "A" ["B"] rfl,
   (activeUserEffect_invalid [] ⟨"Z", 1, 100, "", none⟩ (Or.inr (by decide))).2.1 rfl,
   by decide, by decide, by decide⟩

/-! ## The window -/

/-- C4: for every pair of submitted strings, with `lower ll` and `upper ul` the
bounds after the per-field fallback, `setMessageLimits` stores their minimum as
`lowerLimit` and their maximum as `upperLimit`, so `lowerLimit ≤ upperLimit`;
the input `("50", "10")` gives the window `(10, 50)`. -/
theorem setMessageLimits_min_max (ll ul : String) (s : AppState) :
    (setMessageLimits ll ul s).lowerLimit = min (lower ll) (upper ul)
      ∧ (setMessageLimits ll ul s).upperLimit = max (lower ll) (upper ul)
      ∧ (setMessageLimits ll ul s).lowerLimit ≤ (setMessageLimits ll ul s).upperLimit
      ∧ lower "50" = 50 ∧ upper "10" = 10
      ∧ (setMessageLimits "50" "10" s).lowerLimit = 10
      ∧ (setMessageLimits "50" "10" s).upperLimit = 50 := by
  refine ⟨rfl, rfl, ?_, by decide, by decide, ?_, ?_⟩
  · simp only [setMessageLimits]
    exact le_trans (min_le_left _ _) (le_max_left _ _)
  · show min (lower "50") (upper "10") = 10
    decide
  · show max (lower "50") (upper "10") = 50
    decide

/-- C5: `setMessageLimits` is a total function, and a field whose string is
empty or for which `parseInt` gives `NaN` enters the minimum and maximum with
its default, `1` for the lower field and `100` for the upper field. -/
theorem setMessageLimits_fallback (ll ul : String) (s : AppState) :
    ((ll = "" ∨ parseInt ll = none) →
        (setMessageLimits ll ul s).lowerLimit = min 1 (upper ul)
          ∧ (setMessageLimits ll ul s).upperLimit = max 1 (upper ul))
      ∧ ((ul = "" ∨ parseInt ul = none) →
        (setMessageLimits ll ul s).lowerLimit = min (lower ll) 100
          ∧ (setMessageLimits ll ul s).upperLimit = max (lower ll) 100) := by
  constructor
  · intro h
    have hl : lower ll = 1 := by
      rcases h with h | h
      · simp [lower, h, DEFAULT_LOWER_LIMIT]
      · simp [lower, h, numOr, DEFAULT_LOWER_LIMIT]
    simp [setMessageLimits, hl]
  · intro h
    have hu : upper ul = 100 := by
      rcases h with h | h
      · simp [upper, h, DEFAULT_UPPER_LIMIT]
      · simp [upper, h, numOr, DEFAULT_UPPER_LIMIT]
    simp [setMessageLimits, hu]

theorem setMessageLimits_fallback_witness :
    parseInt "abc" = none
      ∧ (setMessageLimits "" "abc" emptyState).lowerLimit = 1
      ∧ (setMessageLimits "" "abc" emptyState).upperLimit = 100
      ∧ (setMessageLimits "x7" "20" emptyState).lowerLimit = 1
      ∧ (setMessageLimits "30" " " emptyState).upperLimit = 100 :=
  ⟨by decide,
   ((setMessageLimits_fallback "" "abc" emptyState).1 (Or.inl rfl)).1.trans (by decide),
   ((setMessageLimits_fallback "" "abc" emptyState).2 (Or.inr (by decide))).2.trans (by decide),
   ((setMessageLimits_fallback "x7" "20" emptyState).1 (Or.inr (by decide))).1.trans (by decide),
   ((setMessageLimits_fallback "30" " " emptyState).2 (Or.inr (by decide))).2.trans (by decide)⟩


/-- C6 (as the claim states it, refuted): with the three messages of the sample
transcript loaded, `MessageViewer` receives the default window `(1, 100)`, and
after submitting `("2", "50")` it receives `(2, 50)`; the upper bound is not
brought down to `3`. -/
theorem messageViewerProps_not_clamped :
    (messageViewerProps (loadEndHandler sampleImports (.text sampleTranscript)
        (mount sampleImports ""))).messages.length = 3
      ∧ (messageViewerProps (loadEndHandler sampleImports (.text sampleTranscript)
        (mount sampleImports ""))).lowerLimit = 1
      ∧ (messageViewerProps (loadEndHandler sampleImports (.text sampleTranscript)
        (mount sampleImports ""))).upperLimit = 100
      ∧ (messageViewerProps (submitLimits sampleImports "2" "50"
          (loadEndHandler sampleImports (.text sampleTranscript)
            (mount sampleImports "")))).messages.length = 3
      ∧ (messageViewerProps (submitLimits sampleImports "2" "50"
          (loadEndHandler sampleImports (.text sampleTranscript)
            (mount sampleImports "")))).upperLimit = 50 := by
  decide

/-- C6 (amended): for every mounted component and every submitted input, the
window `App` gives to `MessageViewer` is the stored window itself, that is the
minimum and the maximum of the two bounds after fallback, whatever the number
of messages. -/
theorem messageViewerProps_window (lib : Imports) (ll ul : String) (c : Component) :
    (messageViewerProps c).lowerLimit = c.state.lowerLimit
      ∧ (messageViewerProps c).upperLimit = c.state.upperLimit
      ∧ (messageViewerProps (submitLimits lib ll ul c)).lowerLimit = min (lower ll) (upper ul)
      ∧ (messageViewerProps (submitLimits lib ll ul c)).upperLimit
          = max (lower ll) (upper ul) := by
  refine ⟨rfl, rfl, ?_, ?_⟩
  · simp only [messageViewerProps, submitLimits, rerender_eq]
    rw [(renderPass_limits lib _).1]
    rfl
  · simp only [messageViewerProps, submitLimits, rerender_eq]
    rw [(renderPass_limits lib _).2]
    rfl

/-- C7 (as the claim states it, refuted): submitting `("-5", "10")` stores the
lower limit `-5`, which is below `1`. -/
theorem setMessageLimits_negative_lower :
    parseInt "-5" = some (-5)
      ∧ (setMessageLimits "-5" "10" emptyState).lowerLimit = -5
      ∧ (setMessageLimits "-5" "10" emptyState).upperLimit = 10
      ∧ ¬ (1 ≤ (setMessageLimits "-5" "10" emptyState).lowerLimit) := by
  decide

theorem one_le_lower (ll : String) (h : ∀ n, parseInt ll = some n → 0 ≤ n) : 1 ≤ lower ll := by
  unfold lower numOr DEFAULT_LOWER_LIMIT
  split_ifs with h₁
  · exact le_refl 1
  · split
    · rename_i v hv
      split_ifs with h₂
      · exact le_refl 1
      · have := h v hv
        omega
    · exact le_refl 1

theorem one_le_upper (ul : String) (h : ∀ n, parseInt ul = some n → 0 ≤ n) : 1 ≤ upper ul := by
  unfold upper numOr DEFAULT_UPPER_LIMIT
  split_ifs with h₁
  · decide
  · split
    · rename_i v hv
      split_ifs with h₂
      · decide
      · have := h v hv
        omega
    · decide

theorem nonneg_of_one_le_lower (ll : String) (h : 1 ≤ lower ll) (n : Int)
    (hn : parseInt ll = some n) : 0 ≤ n := by
  have he : ll ≠ "" := by
    intro e
    subst e
    have h0 : parseInt "" = none := by decide
    rw [h0] at hn
    cases hn
  simp only [lower, he, if_false, hn, numOr, DEFAULT_LOWER_LIMIT] at h
  split_ifs at h with h₀
  · omega
  · omega

theorem nonneg_of_one_le_upper (ul : String) (h : 1 ≤ upper ul) (n : Int)
    (hn : parseInt ul = some n) : 0 ≤ n := by
  have he : ul ≠ "" := by
    intro e
    subst e
    have h0 : parseInt "" = none := by decide
    rw [h0] at hn
    cases hn
  simp only [upper, he, if_false, hn, numOr, DEFAULT_UPPER_LIMIT] at h
  split_ifs at h with h₀
  · omega
  · omega

/-- C7 (amended): the initial window is `(1, 100)`; after every call of
`setMessageLimits`, with any submitted strings, the stored window has
`upperLimit ≥ lowerLimit`; and it has `lowerLimit ≥ 1` when neither submitted
string parses as a negative integer (a string that parses as zero falls back
to the default), and only then. -/
theorem window_invariant (lib : Imports) (atom ll ul : String) (s : AppState) :
    (mount lib atom).state.lowerLimit = 1 ∧ (mount lib atom).state.upperLimit = 100
      ∧ (setMessageLimits ll ul s).lowerLimit ≤ (setMessageLimits ll ul s).upperLimit
      ∧ ((∀ n, parseInt ll = some n → 0 ≤ n) → (∀ n, parseInt ul = some n → 0 ≤ n) →
          1 ≤ (setMessageLimits ll ul s).lowerLimit)
      ∧ (1 ≤ (setMessageLimits ll ul s).lowerLimit →
          (∀ n, parseInt ll = some n → 0 ≤ n) ∧ (∀ n, parseInt ul = some n → 0 ≤ n)) := by
  refine ⟨?_, ?_, ?_, ?_, ?_⟩
  · simp only [mount, rerender_eq]
    rw [(renderPass_limits lib _).1]
    rfl
  · simp only [mount, rerender_eq]
    rw [(renderPass_limits lib _).2]
    rfl
  · simp only [setMessageLimits]
    exact le_trans (min_le_left _ _) (le_max_left _ _)
  · intro hl hu
    simp only [setMessageLimits]
    exact le_min (one_le_lower ll hl) (one_le_upper ul hu)
  · intro h
    simp only [setMessageLimits] at h
    exact ⟨nonneg_of_one_le_lower ll (le_trans h (min_le_left _ _)),
      nonneg_of_one_le_upper ul (le_trans h (min_le_right _ _))⟩

theorem window_invariant_witness :
    parseInt "0" = some 0
      ∧ (setMessageLimits "0" "7" emptyState).lowerLimit = 1
      ∧ (setMessageLimits "0" "7" emptyState).upperLimit = 7
      ∧ 1 ≤ (setMessageLimits "0" "7" emptyState).lowerLimit
      ∧ (setMessageLimits "10" "-5" emptyState).lowerLimit = -5
      ∧ (setMessageLimits "10" "-5" emptyState).upperLimit = 10
      ∧ (setMessageLimits "10" "-5" emptyState).lowerLimit
          ≤ (setMessageLimits "10" "-5" emptyState).upperLimit :=
  ⟨by decide, by decide, by decide,
   (window_invariant sampleImports "" "0" "7" emptyState).2.2.2.1
      (fun n h => by
        have h0 : parseInt "0" = some 0 := by decide
        rw [h0] at h
        cases h
        exact le_refl 0)
      (fun n h => by
        have h7 : parseInt "7" = some 7 := by decide
        rw [h7] at h
        cases h
        decide),
   by decide, by decide,
   (window_invariant sampleImports "" "10" "-5" emptyState).2.2.1⟩


/-! ## The media type -/

theorem rerender_keeps (lib : Imports) (c : Component) (s : AppState)
    (hr : s.rawFileText = (renderPass lib c).state.rawFileText)
    (hz : s.zipFile = (renderPass lib c).state.zipFile) :
    rerender lib ⟨s, (renderPass lib c).hooks⟩ = ⟨s, (renderPass lib c).hooks⟩ := by
  obtain ⟨h₁, h₂, h₃⟩ := renderPass_settled lib c
  rw [rerender_eq]
  apply renderPass_fixed
  · simp only [hr, hz]; exact h₁
  · exact h₂
  · exact h₃

/-- C8: for every file with declared type `t`, `processFile` starts a binary
read when `t` is one of `application/zip`, `application/x-zip`,
`application/zip-compressed`, `application/x-zip-compressed` (the strings the
pattern matches as a whole); otherwise a text read when `t` is `text/plain`;
otherwise no read, with the one error `File type <t> not supported`.  In each
case the hook state is the one before the call, so a render after it leaves
the memoized messages and participants as they were. -/
theorem processFile_decision (lib : Imports) (f : File) (s : AppState) (c : Component) :
    (zipTypeRegex.test f.type = true ↔
        f.type = "application/zip" ∨ f.type = "application/x-zip"
          ∨ f.type = "application/zip-compressed" ∨ f.type = "application/x-zip-compressed")
      ∧ processFile (some f) s =
        (if f.type = "application/zip" ∨ f.type = "application/x-zip"
            ∨ f.type = "application/zip-compressed" ∨ f.type = "application/x-zip-compressed"
          then ⟨s, some .readAsArrayBuffer, []⟩
          else if f.type = "text/plain" then ⟨s, some .readAsText, []⟩
          else ⟨s, none, ["File type " ++ f.type ++ " not supported"]⟩)
      ∧ processFile (some ⟨"image/png"⟩) s = ⟨s, none, ["File type image/png not supported"]⟩
      ∧ rerender lib ⟨(processFile (some f) (renderPass lib c).state).state,
          (renderPass lib c).hooks⟩ = renderPass lib c := by
  refine ⟨zipTypeRegex_test_iff f.type, ?_, ?_, ?_⟩
  · simp only [processFile, zipTypeRegex_test_iff]
  · have h₁ : zipTypeRegex.test "image/png" = false := by decide
    have h₂ : ("image/png" : String) ≠ "text/plain" := by decide
    have h₃ : "File type " ++ "image/png" ++ " not supported"
        = "File type image/png not supported" := by decide
    simp only [processFile, h₁, h₂, h₃, if_false, Bool.false_eq_true]
  · have hs : (processFile (some f) (renderPass lib c).state).state = (renderPass lib c).state := by
      simp only [processFile]
      split_ifs <;> rfl
    rw [hs]
    exact rerender_keeps lib c _ rfl rfl

/-- C9 (as the claim states it, refuted): the lower-cased forms of
`Application/ZIP` and `application/X-Zip-Compressed` match the pattern, yet
`processFile` starts no read for them and reports an error. -/
theorem processFile_upper_case_rejected :
    zipTypeRegex.test (toLowerCase "Application/ZIP") = true
      ∧ processFile (some ⟨"Application/ZIP"⟩) emptyState
          = ⟨emptyState, none, ["File type Application/ZIP not supported"]⟩
      ∧ zipTypeRegex.test (toLowerCase "application/X-Zip-Compressed") = true
      ∧ processFile (some ⟨"application/X-Zip-Compressed"⟩) emptyState
          = ⟨emptyState, none, ["File type application/X-Zip-Compressed not supported"]⟩ := by
  decide

/-- C9 (amended): the match is case-sensitive.  For every declared type `t`
whose lower-cased form matches the pattern, `processFile` takes the binary-read
path without an error exactly when `t` is already in lower case; when it is
not, no read is started and the error `File type <t> not supported` is
reported. -/
theorem processFile_case_sensitive (t : String) (s : AppState)
    (h : zipTypeRegex.test (toLowerCase t) = true) :
    ((processFile (some ⟨t⟩) s).read = some .readAsArrayBuffer ↔ t = toLowerCase t)
      ∧ (t = toLowerCase t → processFile (some ⟨t⟩) s = ⟨s, some .readAsArrayBuffer, []⟩)
      ∧ (t ≠ toLowerCase t →
          processFile (some ⟨t⟩) s = ⟨s, none, ["File type " ++ t ++ " not supported"]⟩) := by
  by_cases ht : zipTypeRegex.test t = true
  · have hlow : t = toLowerCase t := by
      rcases (zipTypeRegex_test_iff t).1 ht with e | e | e | e <;> subst e <;> decide
    have hp : processFile (some ⟨t⟩) s = ⟨s, some .readAsArrayBuffer, []⟩ := by
      simp only [processFile, ht, if_true]
    refine ⟨?_, fun _ => hp, fun hne => absurd hlow hne⟩
    rw [hp]
    exact ⟨fun _ => hlow, fun _ => rfl⟩
  · have hne : t ≠ toLowerCase t := by
      intro e
      rw [← e] at h
      exact ht h
    have hplain : t ≠ "text/plain" := by
      intro e
      subst e
      revert h
      decide
    have hp : processFile (some ⟨t⟩) s = ⟨s, none, ["File type " ++ t ++ " not supported"]⟩ := by
      simp only [processFile, ht, hplain, if_false, Bool.false_eq_true]
    refine ⟨?_, fun e => absurd e hne, fun _ => hp⟩
    rw [hp]
    constructor
    · intro e; cases e
    · intro e; exact absurd e hne

theorem processFile_case_sensitive_witness :
    processFile (some ⟨"application/x-zip-compressed"⟩) emptyState
        = ⟨emptyState, some .readAsArrayBuffer, []⟩
      ∧ processFile (some ⟨"Application/ZIP"⟩) emptyState
        = ⟨emptyState, none, ["File type " ++ "Application/ZIP" ++ " not supported"]⟩ :=
  ⟨(processFile_case_sensitive "application/x-zip-compressed" emptyState (by decide)).2.1
      (by decide),
   (processFile_case_sensitive "Application/ZIP" emptyState (by decide)).2.2 (by decide)⟩

/-! ## Frame of a window submission -/

/-- C10: in every rendered component, submitting window bounds changes only
`lowerLimit` and `upperLimit`: the raw text, the archive, the active user and
every hook cell (the memoized messages and participants with their identities,
the dependency of the effect, the allocation counter) are as before, so no memo
is computed again and the effect does not run; an active user set by hand to
`B` stays `B`. -/
theorem submitLimits_frame (lib : Imports) (ll ul B : String) (c : Component) :
    (submitLimits lib ll ul (renderPass lib c)).hooks = (renderPass lib c).hooks
      ∧ (submitLimits lib ll ul (renderPass lib c)).state
          = { (renderPass lib c).state with
                lowerLimit := min (lower ll) (upper ul)
                upperLimit := max (lower ll) (upper ul) }
      ∧ (messageViewerProps (submitLimits lib ll ul (renderPass lib c))).messages
          = (messageViewerProps (renderPass lib c)).messages
      ∧ (messageViewerProps (submitLimits lib ll ul (renderPass lib c))).participants
          = (messageViewerProps (renderPass lib c)).participants
      ∧ (selectActiveUser lib B (renderPass lib c)).state.activeUser = B
      ∧ (selectActiveUser lib B (renderPass lib c)).hooks = (renderPass lib c).hooks
      ∧ (submitLimits lib ll ul (selectActiveUser lib B (renderPass lib c))).state.activeUser
          = B
      ∧ (submitLimits lib ll ul (selectActiveUser lib B (renderPass lib c))).hooks
          = (renderPass lib c).hooks := by
  have hsub : submitLimits lib ll ul (renderPass lib c)
      = ⟨setMessageLimits ll ul (renderPass lib c).state, (renderPass lib c).hooks⟩ :=
    rerender_keeps lib c _ rfl rfl
  have hsel : selectActiveUser lib B (renderPass lib c)
      = ⟨{ (renderPass lib c).state with activeUser := B }, (renderPass lib c).hooks⟩ :=
    rerender_keeps lib c _ rfl rfl
  have hboth : submitLimits lib ll ul (selectActiveUser lib B (renderPass lib c))
      = ⟨setMessageLimits ll ul { (renderPass lib c).state with activeUser := B },
          (renderPass lib c).hooks⟩ := by
    rw [hsel]
    exact rerender_keeps lib c _ rfl rfl
  refine ⟨?_, ?_, ?_, ?_, ?_, ?_, ?_, ?_⟩
  · rw [hsub]
  · rw [hsub]; rfl
  · rw [hsub]; rfl
  · rw [hsub]; rfl
  · rw [hsel]
  · rw [hsel]
  · rw [hboth]; rfl
  · rw [hboth]

end App
